import Mathlib

/-!
# Verification of the card-engine layout/animation library

Shallow embedding of `src/card-engine.js` (the `CardVisualEngine` variant;
the `GridStrategy` comes from the sibling `Stage` variant in the same file).
JavaScript numbers are modelled as rationals (`ℚ`); `Math.sin` is an
arbitrary fixed function parameter (only its determinism matters to the
claims); DOM elements are identified by natural numbers; token identity is
a natural-number id into a token-state map.
-/

namespace CardEngine

/-- Engine construction-time configuration (`cardWidth`, `cardHeight`). -/
structure Config where
  cardWidth : ℚ
  cardHeight : ℚ
deriving DecidableEq, Repr

/-! ## CenterRowStrategy (src/card-engine.js lines 233-266)

`update` computes, for `count` items, a horizontal step
(`cw + gap`, shrunk to `(zoneWidth - cw)/(count-1)` when `count > 1`),
a group width `(count-1)*step + cw`, and places item `i` at
`startX + i*step` where `startX = center.x - totalGroupWidth/2`,
with `y = center.y - ch/2`, rotation `0` and z-index `i`. -/

/-- The fixed gap of `CenterRowStrategy.update` (`const gap = 10`). -/
def rowGap : ℚ := 10

/-- The step between consecutive items in a row layout:
`let step = cw + gap; if (count > 1) step = Math.min(step, (zoneWidth - cw)/(count - 1))`. -/
def rowStep (cw zoneWidth : ℚ) (count : ℕ) : ℚ :=
  if 1 < count then min (cw + rowGap) ((zoneWidth - cw) / ((count : ℚ) - 1))
  else cw + rowGap

/-- `totalGroupWidth = (count - 1) * step + cw` of `CenterRowStrategy.update`. -/
def rowTotalGroupWidth (cw zoneWidth : ℚ) (count : ℕ) : ℚ :=
  ((count : ℚ) - 1) * rowStep cw zoneWidth count + cw

/-- Coordinates `CenterRowStrategy.update` passes to `token.moveTo` for item `i`:
`x = startX + i*step`, `y = startY` with
`startX = center.x - totalGroupWidth/2`, `startY = center.y - ch/2`. -/
def rowXY (cw ch : ℚ) (center : ℚ × ℚ) (zoneWidth : ℚ) (count : ℕ) (i : ℕ) : ℚ × ℚ :=
  (center.1 - rowTotalGroupWidth cw zoneWidth count / 2 + (i : ℚ) * rowStep cw zoneWidth count,
   center.2 - ch / 2)

/-- The full per-index assignment list of `CenterRowStrategy.update`:
position and z-index for each of the `count` items (rotation is always `0`).
For `count = 0` the code returns early, assigning nothing. -/
def rowAssignments (cw ch : ℚ) (center : ℚ × ℚ) (zoneWidth : ℚ) (count : ℕ) :
    List ((ℚ × ℚ) × ℕ) :=
  (List.range count).map (fun i => (rowXY cw ch center zoneWidth count i, i))

/-! ## PileStrategy (src/card-engine.js lines 268-288) -/

/-- The angle `PileStrategy.update` assigns to item `i`:
`Math.sin(i * 12345) * this._maxAngle`.  `Math.sin` is modelled as an
arbitrary fixed function `sinFn`; the claims only use that it is a fixed
function of its argument. -/
def pileAngle (sinFn : ℚ → ℚ) (maxAngle : ℚ) (i : ℕ) : ℚ :=
  sinFn ((i : ℚ) * 12345) * maxAngle

/-- The position `PileStrategy.update` assigns to every item:
`(center.x - cw/2, center.y - ch/2)`. -/
def pileXY (cw ch : ℚ) (center : ℚ × ℚ) : ℚ × ℚ :=
  (center.1 - cw / 2, center.2 - ch / 2)

/-- The full per-index assignment list of `PileStrategy.update`:
(position, rotation, z-index) per item. -/
def pileAssignments (sinFn : ℚ → ℚ) (cw ch maxAngle : ℚ) (center : ℚ × ℚ) (count : ℕ) :
    List ((ℚ × ℚ) × ℚ × ℕ) :=
  (List.range count).map (fun i => (pileXY cw ch center, pileAngle sinFn maxAngle i, i))

/-! ## GridStrategy (src/card-engine.js lines 809-844, `Stage` variant) -/

/-- Constructor normalization `this._cols = options.cols || null`:
an explicit `0` is falsy in JavaScript, hence treated as "not configured". -/
def gridColsOption (cols : Option ℕ) : Option ℕ :=
  match cols with
  | some 0 => none
  | c => c

/-- Effective column count of `GridStrategy.update`:
`const cols = this._cols || Math.max(1, Math.floor((zoneWidth + gapX) / (cw + gapX)))`. -/
def gridCols (colsOpt : Option ℕ) (cw gapX zoneWidth : ℚ) : ℕ :=
  match colsOpt with
  | some c => c
  | none => (max 1 ⌊(zoneWidth + gapX) / (cw + gapX)⌋).toNat

/-- The full per-index assignment list of `GridStrategy.update`:
item `i` goes to column `i % cols`, row `i / cols`, at
`(zoneX + col*(cw+gapX), zoneY + row*(ch+gapY))`, z-index `i`.
`(zoneX, zoneY)` is the zone element's top-left corner in stage coordinates. -/
def gridAssignments (cw ch gapX gapY : ℚ) (colsOpt : Option ℕ) (zoneX zoneY zoneWidth : ℚ)
    (count : ℕ) : List ((ℚ × ℚ) × ℕ) :=
  let cols := gridCols colsOpt cw gapX zoneWidth
  (List.range count).map
    (fun i => ((zoneX + ((i % cols : ℕ) : ℚ) * (cw + gapX),
                zoneY + ((i / cols : ℕ) : ℚ) * (ch + gapY)), i))

/-! ## Token (src/card-engine.js lines 10-142)

A `Token` wraps one DOM element.  The element-level state the claims talk
about (display, parent, CSS classes `flow-mode` / `teleport-*`, the inline
`zIndex` and the `transition` toggle of `jumpTo`) is inlined into the token
state; `style.transform` is written by `_applyTransform` as a pure function
of the fields after every field change, so it is modelled as the derived
function `TokenState.transform`. -/

/-- Card types are opaque caller-defined identifiers; `none` is the initial
`null` type of a freshly created token. -/
abbrev CardType := Option ℕ

/-- The state of one `Token` (fields `_x`, `_y`, `_rotation`, `_type`,
`_isFlipped`, `_isFlowMode`) together with its element's state. -/
structure TokenState where
  x : ℚ
  y : ℚ
  rotation : ℚ
  ctype : CardType
  flipped : Bool
  /-- `_isFlowMode`, equivalently the `flow-mode` class on the element. -/
  flowMode : Bool
  /-- the `teleport-out` class -/
  tOut : Bool
  /-- the `teleport-in` class -/
  tIn : Bool
  /-- the `teleport-in-prepare` class -/
  tInPrep : Bool
  /-- `element.style.display !== 'none'` -/
  visible : Bool
  /-- id of `element.parentElement`; the stage element is id `0` -/
  parent : ℕ
  /-- `element.style.transition === 'none'` (toggled inside `jumpTo`) -/
  transitionOff : Bool
  /-- `element.style.zIndex` (written by the layout strategies) -/
  zIndex : ℕ
deriving DecidableEq, Repr

/-- The value of `element.style.transform` as written by `_applyTransform`:
`rotateY(flip)` alone in flow mode, else
`translate3d(x, y, 0) rotate(rotation) rotateY(flip)` (flip is 180 or 0). -/
inductive TransformVal where
  | flowT (flipDeg : ℚ)
  | absT (x y rotation flipDeg : ℚ)
deriving DecidableEq, Repr

namespace Token

/-- `_applyTransform` (lines 134-141), as a pure function of the fields. -/
def transform (t : TokenState) : TransformVal :=
  let flipRot : ℚ := if t.flipped then 180 else 0
  if t.flowMode then .flowT flipRot else .absT t.x t.y t.rotation flipRot

/-- `setType` (lines 32-40); the render callback only paints the face. -/
def setType (t : TokenState) (c : CardType) : TokenState :=
  { t with ctype := c }

/-- `setFlipped` (lines 42-45). -/
def setFlipped (t : TokenState) (b : Bool) : TokenState :=
  { t with flipped := b }

/-- `setFlowMode` (lines 50-61): enabling adds the `flow-mode` class and
resets position/rotation to zero; disabling removes the class. -/
def setFlowMode (t : TokenState) (enabled : Bool) : TokenState :=
  if enabled then { t with flowMode := true, x := 0, y := 0, rotation := 0 }
  else { t with flowMode := false }

/-- `moveTo` (lines 79-85): no-op in flow mode, else set position/rotation. -/
def moveTo (t : TokenState) (x y rotation : ℚ) : TokenState :=
  if t.flowMode then t
  else { t with x := x, y := y, rotation := rotation }

/-- `jumpTo` (lines 87-93): no-op in flow mode, else suppress the
transition, `moveTo(x, y, 0)`, force a reflow, restore the transition. -/
def jumpTo (t : TokenState) (x y : ℚ) : TokenState :=
  if t.flowMode then t
  else
    let t1 := { t with transitionOff := true }
    let t2 := moveTo t1 x y 0
    { t2 with transitionOff := false }

/-- `moveToAnchor` (lines 63-69): no-op in flow mode, else move towards the
anchor element's center minus half the configured card dimensions.
`anchorCenter` is `StageHelper.getRelativePos(targetEl, stage)`. -/
def moveToAnchor (cfg : Config) (t : TokenState) (anchorCenter : ℚ × ℚ) (rotation : ℚ) :
    TokenState :=
  if t.flowMode then t
  else moveTo t (anchorCenter.1 - cfg.cardWidth / 2) (anchorCenter.2 - cfg.cardHeight / 2)
    rotation

/-- `jumpToAnchor` (lines 71-77). -/
def jumpToAnchor (cfg : Config) (t : TokenState) (anchorCenter : ℚ × ℚ) : TokenState :=
  if t.flowMode then t
  else jumpTo t (anchorCenter.1 - cfg.cardWidth / 2) (anchorCenter.2 - cfg.cardHeight / 2)

/-- `teleportOut` (lines 100-105): adds the `teleport-out` class; the
completion callback fires after `duration` (modelled separately). -/
def teleportOutStart (t : TokenState) : TokenState :=
  { t with tOut := true }

/-- Net element state of `teleportIn` (lines 112-125) once its timeout has
fired: `teleport-in-prepare` was added and removed, `teleport-in` added and
removed after `duration`. -/
def teleportInFull (t : TokenState) : TokenState :=
  { t with tInPrep := false, tIn := false }

/-- `resetTeleportState` (lines 130-132). -/
def resetTeleportState (t : TokenState) : TokenState :=
  { t with tOut := false, tIn := false, tInPrep := false }

end Token

/-- A concrete flow-mode token used as a witness input. -/
def flowTok : TokenState :=
  { x := 1, y := 2, rotation := 3, ctype := some 4, flipped := false, flowMode := true,
    tOut := false, tIn := false, tInPrep := false, visible := true, parent := 5,
    transitionOff := false, zIndex := 0 }

/-! ## TokenPool, Zone and CardVisualEngine (src/card-engine.js lines 145-507)

Token identity is a natural-number id; the engine state carries a total map
from ids to token states plus the pool's free list.  JavaScript `push`/`pop`
act on the array end; the free list models the array end as the list head,
preserving the LIFO behaviour exactly. -/

/-- Total map from token ids to token states. -/
abbrev TokenMap := ℕ → TokenState

/-- Point update of a token map. -/
def setTok (m : TokenMap) (i : ℕ) (v : TokenState) : TokenMap :=
  fun j => if j = i then v else m j

/-- State of a token element freshly built by `_createTokenElement`
(lines 205-216): type `null`, not flipped, attached to the given parent. -/
def newTokenState (parent : ℕ) : TokenState :=
  { x := 0, y := 0, rotation := 0, ctype := none, flipped := false, flowMode := false,
    tOut := false, tIn := false, tInPrep := false, visible := true, parent := parent,
    transitionOff := false, zIndex := 0 }

/-- The three strategies `CardVisualEngine.createZone` can build, with their
tunable parameters (`CenterRowStrategy`, `PileStrategy._maxAngle`,
`DomFlowStrategy._gap`). -/
inductive StratKind where
  | row
  | pile (maxAngle : ℚ)
  | flow (gap : ℚ)
deriving DecidableEq, Repr

/-- A `Zone` (lines 313-388) with an assigned strategy.  `center` is
`StageHelper.getRelativePos(zoneEl, stageEl)` and `width` is
`zoneEl.offsetWidth` (geometry read from the DOM, treated as inputs).
`renders` counts invocations of `render()` — the model's observable for
"triggers a re-layout". -/
structure ZoneState where
  items : List ℕ
  strat : StratKind
  element : ℕ
  center : ℚ × ℚ
  width : ℚ
  renders : ℕ

/-- `Zone.isFlowZone` (lines 331-333): `strategy.isFlowStrategy === true`;
only `DomFlowStrategy` sets `isFlowStrategy = true`. -/
def ZoneState.isFlowZone (z : ZoneState) : Bool :=
  match z.strat with
  | .flow _ => true
  | _ => false

/-- Left-to-right fold of an index-dependent per-token update over an
(index, id) list — the `items.forEach((token, i) => ...)` of the
strategies' `update` methods. -/
def applyPairs (f : ℕ → TokenState → TokenState) : List (ℕ × ℕ) → TokenMap → TokenMap
  | [], m => m
  | p :: rest, m => applyPairs f rest (setTok m p.2 (f p.1 (m p.2)))

/-- `items.forEach((token, i) => ...)` over a zone's item list. -/
def applyIndexed (items : List ℕ) (f : ℕ → TokenState → TokenState) (m : TokenMap) :
    TokenMap :=
  applyPairs f items.enum m

/-- Per-item effect of one strategy's `update` on the token state:
Row (lines 260-264): `token.moveTo(x, startY, 0)`, then `zIndex = i`;
Pile (lines 280-286): `token.moveTo(x, y, angle)`, then `zIndex = i`;
Flow (lines 301-308): `token.setFlowMode(true)`, `zIndex = i`, then
re-parent the element into the zone element if not already there. -/
def stratStep (cfg : Config) (sinFn : ℚ → ℚ) (z : ZoneState) (count : ℕ) :
    StratKind → ℕ → TokenState → TokenState
  | .row, i, t =>
      let xy := rowXY cfg.cardWidth cfg.cardHeight z.center z.width count i
      { Token.moveTo t xy.1 xy.2 0 with zIndex := i }
  | .pile a, i, t =>
      let xy := pileXY cfg.cardWidth cfg.cardHeight z.center
      { Token.moveTo t xy.1 xy.2 (pileAngle sinFn a i) with zIndex := i }
  | .flow _, i, t =>
      let t1 := Token.setFlowMode t true
      let t2 := { t1 with zIndex := i }
      if t2.parent ≠ z.element then { t2 with parent := z.element } else t2

/-- `Zone.render` (lines 385-387): `strategy.update(items, el, stage)`. -/
def ZoneState.render (cfg : Config) (sinFn : ℚ → ℚ) (z : ZoneState) (m : TokenMap) :
    ZoneState × TokenMap :=
  ({ z with renders := z.renders + 1 },
   applyIndexed z.items (stratStep cfg sinFn z z.items.length z.strat) m)

/-- `Zone.add` (lines 335-338): push the token, then render. -/
def ZoneState.add (cfg : Config) (sinFn : ℚ → ℚ) (z : ZoneState) (m : TokenMap) (tid : ℕ) :
    ZoneState × TokenMap :=
  ZoneState.render cfg sinFn { z with items := z.items ++ [tid] } m

/-- `Zone.removeToken` (lines 368-376): find by identity (`indexOf`),
splice out the first occurrence and render when found, else report `false`
without rendering. -/
def ZoneState.removeToken (cfg : Config) (sinFn : ℚ → ℚ) (z : ZoneState) (m : TokenMap)
    (tid : ℕ) : (ZoneState × TokenMap) × Bool :=
  if tid ∈ z.items then
    (ZoneState.render cfg sinFn { z with items := z.items.erase tid } m, true)
  else ((z, m), false)

/-- `Zone.addWithTeleport` (lines 346-354): push, render, then play the
token's teleport-in (flow zones; its timer is run to completion here) or
complete immediately; the returned id is the one handed to `onComplete`. -/
def ZoneState.addWithTeleport (cfg : Config) (sinFn : ℚ → ℚ) (z : ZoneState) (m : TokenMap)
    (tid : ℕ) : (ZoneState × TokenMap) × ℕ :=
  let r := ZoneState.render cfg sinFn { z with items := z.items ++ [tid] } m
  if z.isFlowZone then
    ((r.1, setTok r.2 tid (Token.teleportInFull (r.2 tid))), tid)
  else (r, tid)

/-- The guard/lookup `this._items[idx]` used by `removeIndices`: `none`
(JS `undefined`, falsy) at a negative or too-large index; list members are
Token objects, hence always truthy when present. -/
def lookupIdx (l : List ℕ) (i : ℤ) : Option ℕ :=
  if 0 ≤ i then l[i.toNat]? else none

/-- The `indices.forEach(idx => { if (this._items[idx]) removed.push(this._items.splice(idx, 1)[0]); })`
loop of `Zone.removeIndices`, over the already-sorted index list: returns
the remaining items and the removed items in removal order. -/
def removeIndicesGo : List ℤ → List ℕ → List ℕ × List ℕ
  | [], items => (items, [])
  | idx :: rest, items =>
      match lookupIdx items idx with
      | some a =>
          let r := removeIndicesGo rest (items.eraseIdx idx.toNat)
          (r.1, a :: r.2)
      | none => removeIndicesGo rest items

/-- `Zone.removeIndices` (lines 356-366): sort the caller's `indices` array
in place into descending order (`indices.sort((a, b) => b - a)`), remove
the present items, render, return the removed tokens.  The model also
returns the final contents of the caller's `indices` array (third
component), making the in-place sort observable. -/
def ZoneState.removeIndices (cfg : Config) (sinFn : ℚ → ℚ) (z : ZoneState) (m : TokenMap)
    (indices : List ℤ) : (ZoneState × TokenMap) × List ℕ × List ℤ :=
  let sorted := indices.insertionSort (· ≥ ·)
  let r := removeIndicesGo sorted z.items
  (ZoneState.render cfg sinFn { z with items := r.1 } m, r.2, sorted)

/-- Reference function for C8 (from the claim's words, for comparison with
`removeIndicesGo`): keep the elements of the list whose position, counting
from `k`, is not mentioned in `s`. -/
def keepFrom (s : List ℤ) : ℕ → List ℕ → List ℕ
  | _, [] => []
  | k, a :: as => if (k : ℤ) ∈ s then keepFrom s (k + 1) as else a :: keepFrom s (k + 1) as

/-- Pool and token state of one `CardVisualEngine` (`_pool` plus all
created tokens).  `freelist` is `TokenPool._pool` with the JS array end at
the list head; `nextId` is the next fresh token id. -/
structure EngState where
  tokens : TokenMap
  freelist : List ℕ
  nextId : ℕ

/-- `TokenPool.spawn` (lines 153-172): reuse the most recently pooled token
(show it, disable flow mode, clear teleport classes) or create a fresh one
on the stage; set type and flip; jump to the anchor when one is given
(`anchorCenter` is the anchor element's stage-relative center). -/
def EngState.spawn (cfg : Config) (s : EngState) (cardType : CardType)
    (anchorCenter : Option (ℚ × ℚ)) (initialFlipped : Bool) : EngState × ℕ :=
  match s.freelist with
  | tid :: rest =>
      let t1 := { s.tokens tid with visible := true }
      let t2 := Token.resetTeleportState (Token.setFlowMode t1 false)
      let t3 := Token.setFlipped (Token.setType t2 cardType) initialFlipped
      let t4 := match anchorCenter with
        | some c => Token.jumpToAnchor cfg t3 c
        | none => t3
      ({ s with tokens := setTok s.tokens tid t4, freelist := rest }, tid)
  | [] =>
      let t2 := newTokenState 0
      let t3 := Token.setFlipped (Token.setType t2 cardType) initialFlipped
      let t4 := match anchorCenter with
        | some c => Token.jumpToAnchor cfg t3 c
        | none => t3
      ({ tokens := setTok s.tokens s.nextId t4, freelist := [], nextId := s.nextId + 1 },
       s.nextId)

/-- `TokenPool.spawnIntoContainer` (lines 177-193), engine method
`spawnIntoFlow`: reuse (show, clear teleport classes — flow mode is *not*
disabled here) or create detached; append into the container; enable flow
mode; set type and flip. -/
def EngState.spawnIntoFlow (s : EngState) (cardType : CardType) (containerEl : ℕ)
    (initialFlipped : Bool) : EngState × ℕ :=
  match s.freelist with
  | tid :: rest =>
      let t1 := Token.resetTeleportState { s.tokens tid with visible := true }
      let t2 := { t1 with parent := containerEl }
      let t3 := Token.setFlipped (Token.setType (Token.setFlowMode t2 true) cardType)
        initialFlipped
      ({ s with tokens := setTok s.tokens tid t3, freelist := rest }, tid)
  | [] =>
      let t2 := { newTokenState containerEl with parent := containerEl }
      let t3 := Token.setFlipped (Token.setType (Token.setFlowMode t2 true) cardType)
        initialFlipped
      ({ tokens := setTok s.tokens s.nextId t3, freelist := [], nextId := s.nextId + 1 },
       s.nextId)

/-- `TokenPool.despawn` (lines 195-203): hide, disable flow mode, clear
teleport classes, re-parent back under the stage (id `0`) if needed, and
push onto the pool. -/
def EngState.despawn (s : EngState) (tid : ℕ) : EngState :=
  let t1 := { s.tokens tid with visible := false }
  let t2 := Token.resetTeleportState (Token.setFlowMode t1 false)
  let t3 := if t2.parent ≠ 0 then { t2 with parent := 0 } else t2
  { s with tokens := setTok s.tokens tid t3, freelist := tid :: s.freelist }

/-- The values the teleport branch of `transferCard` captures before
scheduling the teleport-out completion. -/
structure PendingTeleport where
  token : ℕ
  cardType : CardType
  newFlipped : Bool
deriving DecidableEq, Repr

/-- Result of the synchronous part of `CardVisualEngine.transferCard`. -/
structure TransferResult where
  state : EngState
  fromZone : ZoneState
  toZone : ZoneState
  /-- `transferCard`'s return value (`null` on the teleport path) -/
  returned : Option ℕ
  /-- token passed synchronously to `onComplete` (non-teleport path only) -/
  delivered : Option ℕ
  /-- deferred completion scheduled via `token.teleportOut` -/
  pending : Option PendingTeleport

/-- `CardVisualEngine.transferCard` (lines 461-507), synchronous part.
Teleport path (either zone is a flow zone): capture type/flip, remove from
source, start teleport-out, return `null` with the completion pending.
Normal path: remove from source, optionally flip, add to destination,
call `onComplete(token)`, return the token. -/
def transferCard (cfg : Config) (sinFn : ℚ → ℚ) (s : EngState) (fz tz : ZoneState)
    (tid : ℕ) (flipOnTransfer : Bool) : TransferResult :=
  if fz.isFlowZone || tz.isFlowZone then
    let cardType := (s.tokens tid).ctype
    let wasFlipped := (s.tokens tid).flipped
    let newFlipped := if flipOnTransfer then !wasFlipped else wasFlipped
    let r := ZoneState.removeToken cfg sinFn fz s.tokens tid
    let m2 := setTok r.1.2 tid (Token.teleportOutStart (r.1.2 tid))
    { state := { s with tokens := m2 }, fromZone := r.1.1, toZone := tz,
      returned := none, delivered := none,
      pending := some ⟨tid, cardType, newFlipped⟩ }
  else
    let r := ZoneState.removeToken cfg sinFn fz s.tokens tid
    let m1 := r.1.2
    let m2 := if flipOnTransfer then
        setTok m1 tid (Token.setFlipped (m1 tid) (!(m1 tid).flipped))
      else m1
    let ra := ZoneState.add cfg sinFn tz m2 tid
    { state := { s with tokens := ra.2 }, fromZone := r.1.1, toZone := ra.1,
      returned := some tid, delivered := some tid, pending := none }

/-- The deferred body of `transferCard`'s teleport branch (lines 479-494),
run when the teleport-out timer fires, against the then-current engine and
destination-zone state: despawn the original, spawn from the pool (flow
spawn iff the destination is a flow zone), add with teleport-in (that
timer also run to completion); the returned id is the token handed to
`onComplete`. -/
def runTeleportComplete (cfg : Config) (sinFn : ℚ → ℚ) (s : EngState) (tz : ZoneState)
    (p : PendingTeleport) : EngState × ZoneState × ℕ :=
  let s1 := EngState.despawn s p.token
  let sp := if tz.isFlowZone then EngState.spawnIntoFlow s1 p.cardType tz.element p.newFlipped
    else EngState.spawn cfg s1 p.cardType (some tz.center) p.newFlipped
  let r := ZoneState.addWithTeleport cfg sinFn tz sp.1.tokens sp.2
  ({ sp.1 with tokens := r.1.2 }, r.1.1, r.2)

/-! ## createZone (src/card-engine.js lines 435-448) -/

/-- The `options` object of `createZone`: recognized fields `angle` (pile)
and `gap` (flow); `none` is an absent field. -/
structure ZoneOptions where
  angle : Option ℚ
  gap : Option ℚ
deriving DecidableEq, Repr

/-- Strategy selection of `CardVisualEngine.createZone` (lines 436-443):
only the kinds 'row', 'pile' and 'flow' have a branch; any other
`strategyType` (including 'grid', which this engine variant does not
implement) leaves `strategy` undefined.  `options.angle || 15` maps both an
absent and a `0` angle to `15`; `DomFlowStrategy`'s `options.gap ?? 8`
(nullish coalescing) maps only an absent gap to `8`. -/
def selectStrategy (strategyType : String) (options : ZoneOptions) : Option StratKind :=
  if strategyType = "row" then some .row
  else if strategyType = "pile" then
    some (.pile (match options.angle with
      | some a => if a = 0 then 15 else a
      | none => 15))
  else if strategyType = "flow" then some (.flow (options.gap.getD 8))
  else none

/-- The zone record `createZone` builds and registers (element plus
possibly-undefined strategy). -/
structure CZone where
  element : ℕ
  strategy : Option StratKind
deriving DecidableEq, Repr

/-- `CardVisualEngine.createZone` (lines 435-448): build the strategy (if
any branch matches), construct the `Zone`, push it onto `this._zones`,
return it. -/
def createZone (zones : List CZone) (zoneElement : ℕ) (strategyType : String)
    (options : ZoneOptions) : List CZone × CZone :=
  let z : CZone := ⟨zoneElement, selectStrategy strategyType options⟩
  (zones ++ [z], z)

end CardEngine

namespace CardEngine

theorem rowAssignments_length (cw ch : ℚ) (center : ℚ × ℚ) (w : ℚ) (n : ℕ) :
    (rowAssignments cw ch center w n).length = n := by
  simp [rowAssignments]

theorem rowAssignments_get (cw ch : ℚ) (center : ℚ × ℚ) (w : ℚ) (n i : ℕ) (h : i < n) :
    (rowAssignments cw ch center w n)[i]? = some (rowXY cw ch center w n i, i) := by
  simp [rowAssignments, List.getElem?_map, List.getElem?_range, h]

theorem rowStep_le (cw w : ℚ) (n : ℕ) : rowStep cw w n ≤ cw + rowGap := by
  unfold rowStep
  split
  · exact min_le_left _ _
  · exact le_refl _

theorem rowTotalGroupWidth_le (cw w : ℚ) (n : ℕ) (hcw : cw ≤ w) (hn : 1 ≤ n) :
    rowTotalGroupWidth cw w n ≤ w := by
  unfold rowTotalGroupWidth rowStep
  rcases Nat.lt_or_ge 1 n with h1 | h1
  · have hpos : (0 : ℚ) < (n : ℚ) - 1 := by
      have : (1 : ℚ) < (n : ℚ) := by exact_mod_cast h1
      linarith
    have hmin : min (cw + rowGap) ((w - cw) / ((n : ℚ) - 1)) ≤ (w - cw) / ((n : ℚ) - 1) :=
      min_le_right _ _
    have hmul : ((n : ℚ) - 1) * min (cw + rowGap) ((w - cw) / ((n : ℚ) - 1)) ≤
        ((n : ℚ) - 1) * ((w - cw) / ((n : ℚ) - 1)) := by
      exact mul_le_mul_of_nonneg_left hmin (le_of_lt hpos)
    have hcancel : ((n : ℚ) - 1) * ((w - cw) / ((n : ℚ) - 1)) = w - cw := by
      field_simp
    simp only [if_pos h1]
    calc ((n : ℚ) - 1) * min (cw + rowGap) ((w - cw) / ((n : ℚ) - 1)) + cw
        ≤ ((n : ℚ) - 1) * ((w - cw) / ((n : ℚ) - 1)) + cw := by linarith
      _ = w - cw + cw := by rw [hcancel]
      _ = w := by ring
  · have hn1 : n = 1 := le_antisymm h1 hn
    subst hn1
    simp only [Nat.lt_irrefl, if_neg (by norm_num : ¬ (1 : ℕ) < 1)]
    push_cast
    linarith


/-- C1 (as stated) is false: with one item (`n = 1`) in an anchor narrower
than a card (`cardWidth = 80`, anchor width `50`), the group width is the
full card width `80`, which exceeds the anchor width `50`. -/
theorem claim_C1_cex :
    rowTotalGroupWidth 80 50 1 = 80 ∧ ¬ rowTotalGroupWidth 80 50 1 ≤ 50 := by
  constructor
  · norm_num [rowTotalGroupWidth, rowStep, rowGap]
  · norm_num [rowTotalGroupWidth, rowStep, rowGap]

/-- C1 (amended: assuming `cardWidth ≤ anchor width`): laying out a Row zone
with `n` items (cardWidth `cw`, gap `10`, anchor width `w`, anchor center
`(cx, cy)`) assigns `n` positions; the step never exceeds `cw + 10` and
equals `cw + 10` for `n ≤ 1` and `min (cw + 10) ((w - cw)/(n-1))` for
`n > 1`; for `n ≥ 1` the group width `(n-1)*step + cw` is at most `w` and
the group (spanning from the first item's `x` to that plus the group width)
is centered on `cx`; item `i` is placed at `startX + i*step`,
`y = cy - ch/2`, with z-order `i`. -/
theorem claim_C1_row_layout (cw ch w cx cy : ℚ) (n : ℕ) (hcw : cw ≤ w) :
    (rowAssignments cw ch (cx, cy) w n).length = n ∧
    rowStep cw w n ≤ cw + 10 ∧
    (n ≤ 1 → rowStep cw w n = cw + 10) ∧
    (1 < n → rowStep cw w n = min (cw + 10) ((w - cw) / ((n : ℚ) - 1))) ∧
    (1 ≤ n → rowTotalGroupWidth cw w n ≤ w) ∧
    ((cx - rowTotalGroupWidth cw w n / 2) +
      ((cx - rowTotalGroupWidth cw w n / 2) + rowTotalGroupWidth cw w n)) / 2 = cx ∧
    (∀ i, i < n → (rowAssignments cw ch (cx, cy) w n)[i]? =
      some ((cx - rowTotalGroupWidth cw w n / 2 + (i : ℚ) * rowStep cw w n,
             cy - ch / 2), i)) := by
  refine ⟨rowAssignments_length cw ch (cx, cy) w n, ?_, ?_, ?_, ?_, by ring, ?_⟩
  · exact rowStep_le cw w n
  · intro hn
    unfold rowStep
    rw [if_neg (by omega)]
    rfl
  · intro hn
    unfold rowStep
    rw [if_pos hn]
    rfl
  · intro hn
    exact rowTotalGroupWidth_le cw w n hcw hn
  · intro i hi
    rw [rowAssignments_get cw ch (cx, cy) w n i hi]
    rfl

/-- Witness for C1: concrete instance `cw = 80`, `w = 200`, `n = 2`. -/
theorem claim_C1_row_layout_witness :
    (80 : ℚ) ≤ 200 ∧ (rowAssignments 80 112 (100, 60) 200 2).length = 2 :=
  ⟨by norm_num, (claim_C1_row_layout 80 112 200 100 60 2 (by norm_num)).1⟩

/-- C7: `PileStrategy.update` assigns every item the shared anchor-center
position `(cx - cw/2, cy - ch/2)`, rotation `sinFn (i * 12345) * maxAngle`
and z-order `i`.  The assignment to index `i` is this fixed function of the
index and the configuration alone, so any two runs of the layout with the
same item list and configuration assign identical angles and positions per
index (determinism). -/
theorem claim_C7_pile_deterministic (sinFn : ℚ → ℚ) (cw ch maxAngle cx cy : ℚ) (n : ℕ) :
    (pileAssignments sinFn cw ch maxAngle (cx, cy) n).length = n ∧
    (∀ i, i < n → (pileAssignments sinFn cw ch maxAngle (cx, cy) n)[i]? =
      some ((cx - cw / 2, cy - ch / 2), sinFn ((i : ℚ) * 12345) * maxAngle, i)) := by
  constructor
  · simp [pileAssignments]
  · intro i hi
    simp [pileAssignments, List.getElem?_map, List.getElem?_range, hi, pileXY, pileAngle]

/-- Witness for C7: concrete instance with the zero function for `sin`. -/
theorem claim_C7_pile_deterministic_witness :
    (1 : ℕ) < 3 ∧
    (pileAssignments (fun _ => 0) 80 112 15 (40, 56) 3)[1]? = some ((0, 0), 0, 1) := by
  refine ⟨by norm_num, ?_⟩
  have h := (claim_C7_pile_deterministic (fun _ => 0) 80 112 15 40 56 3).2 1 (by norm_num)
  rw [h]
  norm_num

/-- C6: `GridStrategy.update` places item `i` at column `i % cols`, row
`i / cols`, offset from the zone element's top-left corner by
`col*(cw+gapX)` and `row*(ch+gapY)`, with z-order `i`; and the
auto-computed column count (when `cols` is not explicitly configured,
i.e. `colsOpt = none`) is always at least `1`. -/
theorem claim_C6_grid_layout (cw ch gapX gapY zx zy w : ℚ) (colsOpt : Option ℕ) (n : ℕ) :
    (gridAssignments cw ch gapX gapY colsOpt zx zy w n).length = n ∧
    (∀ i, i < n → (gridAssignments cw ch gapX gapY colsOpt zx zy w n)[i]? =
      some ((zx + ((i % gridCols colsOpt cw gapX w : ℕ) : ℚ) * (cw + gapX),
             zy + ((i / gridCols colsOpt cw gapX w : ℕ) : ℚ) * (ch + gapY)), i)) ∧
    1 ≤ gridCols none cw gapX w := by
  refine ⟨by simp [gridAssignments], ?_, ?_⟩
  · intro i hi
    simp [gridAssignments, List.getElem?_map, List.getElem?_range, hi]
  · show 1 ≤ (max 1 ⌊(w + gapX) / (cw + gapX)⌋).toNat
    have h1 : (1 : ℤ) ≤ max 1 ⌊(w + gapX) / (cw + gapX)⌋ := le_max_left _ _
    omega

/-- Witness for C6: concrete instance, auto columns, width 200, card 80, gap 10. -/
theorem claim_C6_grid_layout_witness :
    (3 : ℕ) < 5 ∧
    (gridAssignments 80 112 10 10 none 0 0 200 5)[3]? = some ((90, 122), 3) ∧
    1 ≤ gridCols none 80 10 200 := by
  have h := claim_C6_grid_layout 80 112 10 10 0 0 200 none 5
  refine ⟨by norm_num, ?_, h.2.2⟩
  have h3 := h.2.1 3 (by norm_num)
  have hc : gridCols none (80 : ℚ) 10 200 = 2 := by
    show (max 1 ⌊(200 + 10 : ℚ) / (80 + 10)⌋).toNat = 2
    norm_num
    decide
  rw [h3, hc]
  norm_num

end CardEngine

namespace CardEngine

/-- C5: for every token with `flowMode = true`, each of `moveTo`,
`moveToAnchor`, `jumpTo` and `jumpToAnchor` is a no-op: the token state —
in particular its position `(x, y)`, its `rotation` field and its derived
visual transform — is unchanged by the call. -/
theorem claim_C5_flow_mode_noop (cfg : Config) (t : TokenState) (x y rotation : ℚ)
    (anchorCenter : ℚ × ℚ) (h : t.flowMode = true) :
    Token.moveTo t x y rotation = t ∧
    Token.jumpTo t x y = t ∧
    Token.moveToAnchor cfg t anchorCenter rotation = t ∧
    Token.jumpToAnchor cfg t anchorCenter = t ∧
    Token.transform (Token.moveTo t x y rotation) = Token.transform t ∧
    Token.transform (Token.jumpTo t x y) = Token.transform t := by
  simp [Token.moveTo, Token.jumpTo, Token.moveToAnchor, Token.jumpToAnchor, h]

/-- Witness for C5: a concrete flow-mode token is unmoved by `moveTo`. -/
theorem claim_C5_flow_mode_noop_witness :
    (flowTok.flowMode = true) ∧ Token.moveTo flowTok 7 8 9 = flowTok :=
  ⟨rfl, (claim_C5_flow_mode_noop ⟨80, 112⟩ flowTok 7 8 9 (3, 4) rfl).1⟩

end CardEngine

namespace CardEngine

theorem setTok_same (m : TokenMap) (i : ℕ) (v : TokenState) : setTok m i v i = v := by
  simp [setTok]

theorem setTok_ne (m : TokenMap) (i : ℕ) (v : TokenState) (j : ℕ) (h : j ≠ i) :
    setTok m i v j = m j := by
  simp [setTok, h]

/-- C9 (as stated) is false for the kind 'grid': the cited `createZone`
(`CardVisualEngine`, lines 435-448) has no 'grid' branch, so the created
zone has no assigned strategy rather than a grid strategy. -/
theorem claim_C9_cex :
    (createZone [] 0 "grid" ⟨none, none⟩).2.strategy = none := rfl

/-- C9 (amended: the corresponding-strategy guarantee holds for the kinds
{row, pile, flow} actually handled by this `createZone`): for those kinds
the zone's strategy is of the corresponding kind; for any other kind —
including 'grid' — `createZone` still returns and registers a Zone, but
that Zone has no assigned strategy. -/
theorem claim_C9_createZone (zones : List CZone) (el : ℕ) (kind : String)
    (opts : ZoneOptions) :
    (createZone zones el kind opts).1 = zones ++ [(createZone zones el kind opts).2] ∧
    (createZone zones el kind opts).2.element = el ∧
    (kind = "row" → (createZone zones el kind opts).2.strategy = some .row) ∧
    (kind = "pile" → ∃ a, (createZone zones el kind opts).2.strategy = some (.pile a)) ∧
    (kind = "flow" → ∃ g, (createZone zones el kind opts).2.strategy = some (.flow g)) ∧
    (kind ≠ "row" ∧ kind ≠ "pile" ∧ kind ≠ "flow" →
      (createZone zones el kind opts).2.strategy = none) := by
  refine ⟨rfl, rfl, ?_, ?_, ?_, ?_⟩
  · intro h
    simp [createZone, selectStrategy, h]
  · intro h
    subst h
    exact ⟨_, rfl⟩
  · intro h
    subst h
    exact ⟨_, rfl⟩
  · rintro ⟨h1, h2, h3⟩
    simp [createZone, selectStrategy, h1, h2, h3]

/-- Witness for C9: creating a 'row' zone yields the row strategy. -/
theorem claim_C9_createZone_witness :
    (createZone [] 3 "row" ⟨none, none⟩).2.strategy = some .row :=
  (claim_C9_createZone [] 3 "row" ⟨none, none⟩).2.2.1 rfl

/-- C3: round-trip through the pool.  For every token `tid` and every pool
state, `despawn(tid)` followed immediately by
`spawn(cardType, anchorCenter?, flipped)` returns the very same token
`tid`, with flow mode disabled, all teleport classes cleared, its card type
set to `cardType` and its flip state set to `flipped`. -/
theorem claim_C3_pool_roundtrip (cfg : Config) (s : EngState) (tid : ℕ)
    (cardType : CardType) (anchorCenter : Option (ℚ × ℚ)) (flipped : Bool) :
    (EngState.spawn cfg (EngState.despawn s tid) cardType anchorCenter flipped).2 = tid ∧
    ((EngState.spawn cfg (EngState.despawn s tid) cardType anchorCenter flipped).1.tokens
        tid).flowMode = false ∧
    ((EngState.spawn cfg (EngState.despawn s tid) cardType anchorCenter flipped).1.tokens
        tid).tOut = false ∧
    ((EngState.spawn cfg (EngState.despawn s tid) cardType anchorCenter flipped).1.tokens
        tid).tIn = false ∧
    ((EngState.spawn cfg (EngState.despawn s tid) cardType anchorCenter flipped).1.tokens
        tid).tInPrep = false ∧
    ((EngState.spawn cfg (EngState.despawn s tid) cardType anchorCenter flipped).1.tokens
        tid).ctype = cardType ∧
    ((EngState.spawn cfg (EngState.despawn s tid) cardType anchorCenter flipped).1.tokens
        tid).flipped = flipped := by
  cases anchorCenter with
  | none =>
      simp [EngState.despawn, EngState.spawn, setTok, Token.setFlowMode,
        Token.resetTeleportState, Token.setType, Token.setFlipped]
  | some c =>
      simp [EngState.despawn, EngState.spawn, setTok, Token.setFlowMode,
        Token.resetTeleportState, Token.setType, Token.setFlipped,
        Token.jumpToAnchor, Token.jumpTo, Token.moveTo]

/-- C10: `removeIndices` mutates its argument: the caller's `indices` array
is, after the call, sorted into descending order (a permutation of the
original contents, pairwise `≥`). -/
theorem claim_C10_removeIndices_mutates (cfg : Config) (sinFn : ℚ → ℚ) (z : ZoneState)
    (m : TokenMap) (indices : List ℤ) :
    (ZoneState.removeIndices cfg sinFn z m indices).2.2 =
      indices.insertionSort (· ≥ ·) ∧
    List.Sorted (· ≥ ·) (ZoneState.removeIndices cfg sinFn z m indices).2.2 ∧
    (ZoneState.removeIndices cfg sinFn z m indices).2.2.Perm indices := by
  refine ⟨rfl, ?_, ?_⟩
  · exact List.sorted_insertionSort _ _
  · exact List.perm_insertionSort _ _

end CardEngine

namespace CardEngine

/-- C4 (as stated) is false.  First conjunct: starting from two empty
zones (public ops: `spawn` the token, then `Zone.add` on each zone),
adding the same token to both zones leaves it in both item lists — the
engine does not enforce exclusivity.  Second conjunct: if a token occurs
twice in zone `A`, `removeToken` removes only the first occurrence, so
after `A.removeToken(t)` the token is still a member of `A`. -/
theorem claim_C4_cex :
    (7 ∈ (ZoneState.add ⟨80, 112⟩ (fun _ => 0)
        ⟨[], .row, 1, (0, 0), 200, 0⟩ (fun _ => newTokenState 0) 7).1.items ∧
     7 ∈ (ZoneState.add ⟨80, 112⟩ (fun _ => 0)
        ⟨[], .row, 2, (0, 0), 200, 0⟩
        (ZoneState.add ⟨80, 112⟩ (fun _ => 0)
          ⟨[], .row, 1, (0, 0), 200, 0⟩ (fun _ => newTokenState 0) 7).2 7).1.items) ∧
    7 ∈ (ZoneState.removeToken ⟨80, 112⟩ (fun _ => 0)
        ⟨[7, 7], .row, 1, (0, 0), 200, 0⟩ (fun _ => newTokenState 0) 7).1.1.items := by
  refine ⟨⟨?_, ?_⟩, ?_⟩
  · show 7 ∈ ([] ++ [7] : List ℕ)
    simp
  · show 7 ∈ ([] ++ [7] : List ℕ)
    simp
  · show 7 ∈ (ZoneState.render ⟨80, 112⟩ (fun _ => 0)
      { items := ([7, 7] : List ℕ).erase 7, strat := .row, element := 1,
        center := (0, 0), width := 200, renders := 0 } (fun _ => newTokenState 0)).1.items
    simp [ZoneState.render, List.erase]

/-- C4 (amended): the engine does not itself enforce global exclusivity
(a token added to two zones without an intervening removal appears in
both); what holds is the migration property: for every token `tid`
occurring exactly once in zone `A`, `A.removeToken(tid)` followed by
`B.add(tid)` leaves `tid` a member of `B`'s item list and not of `A`'s. -/
theorem claim_C4_zone_migration (cfg : Config) (sinFn : ℚ → ℚ) (A B : ZoneState)
    (mA : TokenMap) (tid : ℕ) (h : A.items.count tid = 1) :
    tid ∉ (ZoneState.removeToken cfg sinFn A mA tid).1.1.items ∧
    tid ∈ (ZoneState.add cfg sinFn B
      (ZoneState.removeToken cfg sinFn A mA tid).1.2 tid).1.items ∧
    (ZoneState.removeToken cfg sinFn A mA tid).2 = true := by
  have hmem : tid ∈ A.items := by
    have : 0 < A.items.count tid := by omega
    exact List.count_pos_iff.mp this
  refine ⟨?_, ?_, ?_⟩
  · simp only [ZoneState.removeToken, if_pos hmem, ZoneState.render]
    intro hc
    have : (A.items.erase tid).count tid = A.items.count tid - 1 :=
      List.count_erase_self tid A.items
    rw [h] at this
    have h0 : (A.items.erase tid).count tid = 0 := this
    have := List.count_pos_iff.mpr hc
    omega
  · simp [ZoneState.add, ZoneState.render]
  · simp [ZoneState.removeToken, if_pos hmem]

/-- Witness for C4: concrete migration `A = [7]`, `B = []`. -/
theorem claim_C4_zone_migration_witness :
    (([7] : List ℕ).count 7 = 1) ∧
    (7 ∉ (ZoneState.removeToken ⟨80, 112⟩ (fun _ => 0)
        ⟨[7], .row, 1, (0, 0), 200, 0⟩ (fun _ => newTokenState 0) 7).1.1.items ∧
     7 ∈ (ZoneState.add ⟨80, 112⟩ (fun _ => 0)
        ⟨[], .row, 2, (0, 0), 200, 0⟩
        (ZoneState.removeToken ⟨80, 112⟩ (fun _ => 0)
          ⟨[7], .row, 1, (0, 0), 200, 0⟩ (fun _ => newTokenState 0) 7).1.2 7).1.items ∧
     (ZoneState.removeToken ⟨80, 112⟩ (fun _ => 0)
        ⟨[7], .row, 1, (0, 0), 200, 0⟩ (fun _ => newTokenState 0) 7).2 = true) :=
  ⟨by simp, claim_C4_zone_migration ⟨80, 112⟩ (fun _ => 0)
    ⟨[7], .row, 1, (0, 0), 200, 0⟩ ⟨[], .row, 2, (0, 0), 200, 0⟩
    (fun _ => newTokenState 0) 7 (by simp)⟩

end CardEngine

namespace CardEngine

theorem applyPairs_proj {β : Type} (g : TokenState → β) (f : ℕ → TokenState → TokenState)
    (hf : ∀ i t, g (f i t) = g t) :
    ∀ (ps : List (ℕ × ℕ)) (m : TokenMap) (j : ℕ), g (applyPairs f ps m j) = g (m j) := by
  intro ps
  induction ps with
  | nil => intro m j; rfl
  | cons p rest ih =>
      intro m j
      rw [applyPairs, ih]
      by_cases hj : j = p.2
      · subst hj
        rw [setTok_same]
        exact hf _ _
      · rw [setTok_ne _ _ _ _ hj]

theorem applyPairs_not_mem (f : ℕ → TokenState → TokenState) :
    ∀ (ps : List (ℕ × ℕ)) (m : TokenMap) (j : ℕ), j ∉ ps.map Prod.snd →
      applyPairs f ps m j = m j := by
  intro ps
  induction ps with
  | nil => intro m j _; rfl
  | cons p rest ih =>
      intro m j hj
      rw [List.map_cons, List.mem_cons, not_or] at hj
      rw [applyPairs, ih _ _ hj.2, setTok_ne _ _ _ _ hj.1]

theorem applyPairs_mem_const {β : Type} (g : TokenState → β) (c : β)
    (f : ℕ → TokenState → TokenState) (hf : ∀ i t, g (f i t) = c) :
    ∀ (ps : List (ℕ × ℕ)) (m : TokenMap) (j : ℕ), j ∈ ps.map Prod.snd →
      g (applyPairs f ps m j) = c := by
  intro ps
  induction ps with
  | nil => intro m j hj; cases hj
  | cons p rest ih =>
      intro m j hj
      by_cases hr : j ∈ rest.map Prod.snd
      · rw [applyPairs]
        exact ih _ _ hr
      · rw [List.map_cons, List.mem_cons] at hj
        rcases hj with hj | hj
        · subst hj
          rw [applyPairs, applyPairs_not_mem _ _ _ _ hr, setTok_same]
          exact hf _ _
        · exact absurd hj hr

theorem stratStep_ctype (cfg : Config) (sinFn : ℚ → ℚ) (z : ZoneState) (count : ℕ)
    (k : StratKind) (i : ℕ) (t : TokenState) :
    (stratStep cfg sinFn z count k i t).ctype = t.ctype := by
  cases k <;>
    simp [stratStep, Token.moveTo, Token.setFlowMode,
      apply_ite (fun s : TokenState => s.ctype)]

theorem stratStep_flipped (cfg : Config) (sinFn : ℚ → ℚ) (z : ZoneState) (count : ℕ)
    (k : StratKind) (i : ℕ) (t : TokenState) :
    (stratStep cfg sinFn z count k i t).flipped = t.flipped := by
  cases k <;>
    simp [stratStep, Token.moveTo, Token.setFlowMode,
      apply_ite (fun s : TokenState => s.flipped)]

theorem stratStep_teleport (cfg : Config) (sinFn : ℚ → ℚ) (z : ZoneState) (count : ℕ)
    (k : StratKind) (i : ℕ) (t : TokenState) :
    (stratStep cfg sinFn z count k i t).tOut = t.tOut ∧
    (stratStep cfg sinFn z count k i t).tIn = t.tIn ∧
    (stratStep cfg sinFn z count k i t).tInPrep = t.tInPrep := by
  refine ⟨?_, ?_, ?_⟩ <;> cases k <;>
    simp [stratStep, Token.moveTo, Token.setFlowMode,
      apply_ite (fun s : TokenState => s.tOut),
      apply_ite (fun s : TokenState => s.tIn),
      apply_ite (fun s : TokenState => s.tInPrep)]

theorem render_ctype (cfg : Config) (sinFn : ℚ → ℚ) (z : ZoneState) (m : TokenMap) (j : ℕ) :
    ((ZoneState.render cfg sinFn z m).2 j).ctype = (m j).ctype :=
  applyPairs_proj (fun t => t.ctype) _ (fun i t => stratStep_ctype cfg sinFn z _ z.strat i t)
    _ m j

theorem render_flipped (cfg : Config) (sinFn : ℚ → ℚ) (z : ZoneState) (m : TokenMap) (j : ℕ) :
    ((ZoneState.render cfg sinFn z m).2 j).flipped = (m j).flipped :=
  applyPairs_proj (fun t => t.flipped) _
    (fun i t => stratStep_flipped cfg sinFn z _ z.strat i t) _ m j

theorem render_flowMode_of_not_flow (cfg : Config) (sinFn : ℚ → ℚ) (z : ZoneState)
    (m : TokenMap) (j : ℕ) (h : z.isFlowZone = false) :
    ((ZoneState.render cfg sinFn z m).2 j).flowMode = (m j).flowMode := by
  refine applyPairs_proj (fun t => t.flowMode) _ ?_ _ m j
  intro i t
  cases hk : z.strat with
  | row => simp [stratStep, Token.moveTo, apply_ite (fun s : TokenState => s.flowMode)]
  | pile a => simp [stratStep, Token.moveTo, apply_ite (fun s : TokenState => s.flowMode)]
  | flow g => rw [ZoneState.isFlowZone, hk] at h; cases h

theorem render_parent_of_not_flow (cfg : Config) (sinFn : ℚ → ℚ) (z : ZoneState)
    (m : TokenMap) (j : ℕ) (h : z.isFlowZone = false) :
    ((ZoneState.render cfg sinFn z m).2 j).parent = (m j).parent := by
  refine applyPairs_proj (fun t => t.parent) _ ?_ _ m j
  intro i t
  cases hk : z.strat with
  | row => simp [stratStep, Token.moveTo, apply_ite (fun s : TokenState => s.parent)]
  | pile a => simp [stratStep, Token.moveTo, apply_ite (fun s : TokenState => s.parent)]
  | flow g => rw [ZoneState.isFlowZone, hk] at h; cases h

theorem render_flow_flowMode (cfg : Config) (sinFn : ℚ → ℚ) (z : ZoneState) (m : TokenMap)
    (j : ℕ) (h : z.isFlowZone = true) (hj : j ∈ z.items) :
    ((ZoneState.render cfg sinFn z m).2 j).flowMode = true := by
  cases hk : z.strat with
  | row => rw [ZoneState.isFlowZone, hk] at h; cases h
  | pile a => rw [ZoneState.isFlowZone, hk] at h; cases h
  | flow g =>
      show ((applyIndexed z.items (stratStep cfg sinFn z z.items.length z.strat) m)
        j).flowMode = true
      rw [hk]
      refine applyPairs_mem_const (fun t => t.flowMode) true _ ?_ _ m j ?_
      · intro i t
        simp [stratStep, Token.setFlowMode,
          apply_ite (fun s : TokenState => s.flowMode)]
      · rw [List.enum_map_snd]
        exact hj

theorem render_flow_parent (cfg : Config) (sinFn : ℚ → ℚ) (z : ZoneState) (m : TokenMap)
    (j : ℕ) (h : z.isFlowZone = true) (hj : j ∈ z.items) :
    ((ZoneState.render cfg sinFn z m).2 j).parent = z.element := by
  cases hk : z.strat with
  | row => rw [ZoneState.isFlowZone, hk] at h; cases h
  | pile a => rw [ZoneState.isFlowZone, hk] at h; cases h
  | flow g =>
      show ((applyIndexed z.items (stratStep cfg sinFn z z.items.length z.strat) m)
        j).parent = z.element
      rw [hk]
      refine applyPairs_mem_const (fun t => t.parent) z.element _ ?_ _ m j ?_
      · intro i t
        simp only [stratStep, Token.setFlowMode]
        split_ifs with h1 h2
        · rfl
        · simpa using h2
        all_goals exact absurd trivial h1
      · rw [List.enum_map_snd]
        exact hj

end CardEngine

namespace CardEngine

theorem despawn_freelist (s : EngState) (tid : ℕ) :
    (EngState.despawn s tid).freelist = tid :: s.freelist := rfl

theorem despawn_token_fields (s : EngState) (tid : ℕ) :
    ((EngState.despawn s tid).tokens tid).parent = 0 ∧
    ((EngState.despawn s tid).tokens tid).ctype = (s.tokens tid).ctype ∧
    ((EngState.despawn s tid).tokens tid).flipped = (s.tokens tid).flipped ∧
    ((EngState.despawn s tid).tokens tid).visible = false := by
  simp only [EngState.despawn, Token.setFlowMode, Token.resetTeleportState, setTok_same]
  split_ifs <;> simp_all

theorem spawn_of_cons (cfg : Config) (s : EngState) (tid : ℕ) (rest : List ℕ)
    (h : s.freelist = tid :: rest) (c : CardType) (ac : Option (ℚ × ℚ)) (fl : Bool) :
    (EngState.spawn cfg s c ac fl).2 = tid ∧
    (EngState.spawn cfg s c ac fl).1.freelist = rest ∧
    ((EngState.spawn cfg s c ac fl).1.tokens tid).ctype = c ∧
    ((EngState.spawn cfg s c ac fl).1.tokens tid).flipped = fl ∧
    ((EngState.spawn cfg s c ac fl).1.tokens tid).flowMode = false ∧
    ((EngState.spawn cfg s c ac fl).1.tokens tid).parent = (s.tokens tid).parent := by
  cases ac with
  | none =>
      simp [EngState.spawn, h, Token.setFlowMode, Token.resetTeleportState, Token.setType,
        Token.setFlipped, setTok_same]
  | some p =>
      simp [EngState.spawn, h, Token.setFlowMode, Token.resetTeleportState, Token.setType,
        Token.setFlipped, Token.jumpToAnchor, Token.jumpTo, Token.moveTo, setTok_same]

theorem spawnIntoFlow_of_cons (s : EngState) (tid : ℕ) (rest : List ℕ)
    (h : s.freelist = tid :: rest) (c : CardType) (el : ℕ) (fl : Bool) :
    (EngState.spawnIntoFlow s c el fl).2 = tid ∧
    (EngState.spawnIntoFlow s c el fl).1.freelist = rest ∧
    ((EngState.spawnIntoFlow s c el fl).1.tokens tid).ctype = c ∧
    ((EngState.spawnIntoFlow s c el fl).1.tokens tid).flipped = fl ∧
    ((EngState.spawnIntoFlow s c el fl).1.tokens tid).flowMode = true ∧
    ((EngState.spawnIntoFlow s c el fl).1.tokens tid).parent = el := by
  simp [EngState.spawnIntoFlow, h, Token.setFlowMode, Token.resetTeleportState,
    Token.setType, Token.setFlipped, setTok_same]

theorem teleportInFull_fields (t : TokenState) :
    (Token.teleportInFull t).ctype = t.ctype ∧
    (Token.teleportInFull t).flipped = t.flipped ∧
    (Token.teleportInFull t).flowMode = t.flowMode ∧
    (Token.teleportInFull t).parent = t.parent :=
  ⟨rfl, rfl, rfl, rfl⟩

theorem addWithTeleport_zone (cfg : Config) (sinFn : ℚ → ℚ) (z : ZoneState) (m : TokenMap)
    (tid : ℕ) :
    (ZoneState.addWithTeleport cfg sinFn z m tid).1.1.items = z.items ++ [tid] ∧
    (ZoneState.addWithTeleport cfg sinFn z m tid).2 = tid := by
  unfold ZoneState.addWithTeleport
  split <;> exact ⟨rfl, rfl⟩

theorem addWithTeleport_ctype (cfg : Config) (sinFn : ℚ → ℚ) (z : ZoneState) (m : TokenMap)
    (tid j : ℕ) :
    ((ZoneState.addWithTeleport cfg sinFn z m tid).1.2 j).ctype = (m j).ctype := by
  unfold ZoneState.addWithTeleport
  split
  · by_cases hj : j = tid
    · subst hj
      show (setTok _ j (Token.teleportInFull _) j).ctype = _
      rw [setTok_same, (teleportInFull_fields _).1]
      exact render_ctype cfg sinFn _ m j
    · show (setTok _ tid (Token.teleportInFull _) j).ctype = _
      rw [setTok_ne _ _ _ _ hj]
      exact render_ctype cfg sinFn _ m j
  · exact render_ctype cfg sinFn _ m j

theorem addWithTeleport_flipped (cfg : Config) (sinFn : ℚ → ℚ) (z : ZoneState) (m : TokenMap)
    (tid j : ℕ) :
    ((ZoneState.addWithTeleport cfg sinFn z m tid).1.2 j).flipped = (m j).flipped := by
  unfold ZoneState.addWithTeleport
  split
  · by_cases hj : j = tid
    · subst hj
      show (setTok _ j (Token.teleportInFull _) j).flipped = _
      rw [setTok_same, (teleportInFull_fields _).2.1]
      exact render_flipped cfg sinFn _ m j
    · show (setTok _ tid (Token.teleportInFull _) j).flipped = _
      rw [setTok_ne _ _ _ _ hj]
      exact render_flipped cfg sinFn _ m j
  · exact render_flipped cfg sinFn _ m j

end CardEngine

namespace CardEngine

theorem addWithTeleport_flow_flowMode (cfg : Config) (sinFn : ℚ → ℚ) (z : ZoneState)
    (m : TokenMap) (tid : ℕ) (h : z.isFlowZone = true) :
    ((ZoneState.addWithTeleport cfg sinFn z m tid).1.2 tid).flowMode = true := by
  unfold ZoneState.addWithTeleport
  rw [if_pos (by simpa using h)]
  show (setTok _ tid (Token.teleportInFull _) tid).flowMode = true
  rw [setTok_same, (teleportInFull_fields _).2.2.1]
  exact render_flow_flowMode cfg sinFn _ m tid h (by simp)

theorem addWithTeleport_flow_parent (cfg : Config) (sinFn : ℚ → ℚ) (z : ZoneState)
    (m : TokenMap) (tid : ℕ) (h : z.isFlowZone = true) :
    ((ZoneState.addWithTeleport cfg sinFn z m tid).1.2 tid).parent = z.element := by
  unfold ZoneState.addWithTeleport
  rw [if_pos (by simpa using h)]
  show (setTok _ tid (Token.teleportInFull _) tid).parent = z.element
  rw [setTok_same, (teleportInFull_fields _).2.2.2]
  exact render_flow_parent cfg sinFn _ m tid h (by simp)

theorem addWithTeleport_flowMode_of_not_flow (cfg : Config) (sinFn : ℚ → ℚ) (z : ZoneState)
    (m : TokenMap) (tid j : ℕ) (h : z.isFlowZone = false) :
    ((ZoneState.addWithTeleport cfg sinFn z m tid).1.2 j).flowMode = (m j).flowMode := by
  unfold ZoneState.addWithTeleport
  rw [if_neg (by simp [h])]
  exact render_flowMode_of_not_flow cfg sinFn _ m j h

theorem addWithTeleport_parent_of_not_flow (cfg : Config) (sinFn : ℚ → ℚ) (z : ZoneState)
    (m : TokenMap) (tid j : ℕ) (h : z.isFlowZone = false) :
    ((ZoneState.addWithTeleport cfg sinFn z m tid).1.2 j).parent = (m j).parent := by
  unfold ZoneState.addWithTeleport
  rw [if_neg (by simp [h])]
  exact render_parent_of_not_flow cfg sinFn _ m j h

end CardEngine

namespace CardEngine

theorem removeToken_items (cfg : Config) (sinFn : ℚ → ℚ) (z : ZoneState) (m : TokenMap)
    (tid : ℕ) :
    (ZoneState.removeToken cfg sinFn z m tid).1.1.items = z.items.erase tid := by
  unfold ZoneState.removeToken
  split
  · rfl
  · next h => exact (List.erase_of_not_mem h).symm

theorem removeToken_ctype (cfg : Config) (sinFn : ℚ → ℚ) (z : ZoneState) (m : TokenMap)
    (tid j : ℕ) :
    ((ZoneState.removeToken cfg sinFn z m tid).1.2 j).ctype = (m j).ctype := by
  unfold ZoneState.removeToken
  split
  · exact render_ctype cfg sinFn _ m j
  · rfl

theorem removeToken_flipped (cfg : Config) (sinFn : ℚ → ℚ) (z : ZoneState) (m : TokenMap)
    (tid j : ℕ) :
    ((ZoneState.removeToken cfg sinFn z m tid).1.2 j).flipped = (m j).flipped := by
  unfold ZoneState.removeToken
  split
  · exact render_flipped cfg sinFn _ m j
  · rfl

theorem add_items (cfg : Config) (sinFn : ℚ → ℚ) (z : ZoneState) (m : TokenMap) (tid : ℕ) :
    (ZoneState.add cfg sinFn z m tid).1.items = z.items ++ [tid] := rfl

theorem transferCard_not_flow (cfg : Config) (sinFn : ℚ → ℚ) (s : EngState)
    (fz tz : ZoneState) (tid : ℕ) (flip : Bool)
    (h : (fz.isFlowZone || tz.isFlowZone) = false) :
    transferCard cfg sinFn s fz tz tid flip =
      (let r := ZoneState.removeToken cfg sinFn fz s.tokens tid
       let m1 := r.1.2
       let m2 := if flip then
           setTok m1 tid (Token.setFlipped (m1 tid) (!(m1 tid).flipped))
         else m1
       let ra := ZoneState.add cfg sinFn tz m2 tid
       { state := { s with tokens := ra.2 }, fromZone := r.1.1, toZone := ra.1,
         returned := some tid, delivered := some tid, pending := none }) := by
  unfold transferCard
  rw [if_neg (by simp [h])]

theorem transferCard_flow (cfg : Config) (sinFn : ℚ → ℚ) (s : EngState)
    (fz tz : ZoneState) (tid : ℕ) (flip : Bool)
    (h : (fz.isFlowZone || tz.isFlowZone) = true) :
    transferCard cfg sinFn s fz tz tid flip =
      (let newFlipped := if flip then !(s.tokens tid).flipped else (s.tokens tid).flipped
       let r := ZoneState.removeToken cfg sinFn fz s.tokens tid
       let m2 := setTok r.1.2 tid (Token.teleportOutStart (r.1.2 tid))
       { state := { s with tokens := m2 }, fromZone := r.1.1, toZone := tz,
         returned := none, delivered := none,
         pending := some ⟨tid, (s.tokens tid).ctype, newFlipped⟩ }) := by
  unfold transferCard
  rw [if_pos (by simpa using h)]

theorem runTeleportComplete_flow (cfg : Config) (sinFn : ℚ → ℚ) (s : EngState)
    (tz : ZoneState) (p : PendingTeleport) (h : tz.isFlowZone = true) :
    runTeleportComplete cfg sinFn s tz p =
      (let s1 := EngState.despawn s p.token
       let sp := EngState.spawnIntoFlow s1 p.cardType tz.element p.newFlipped
       let r := ZoneState.addWithTeleport cfg sinFn tz sp.1.tokens sp.2
       ({ sp.1 with tokens := r.1.2 }, r.1.1, r.2)) := by
  unfold runTeleportComplete
  simp only [h]
  rfl

theorem runTeleportComplete_not_flow (cfg : Config) (sinFn : ℚ → ℚ) (s : EngState)
    (tz : ZoneState) (p : PendingTeleport) (h : tz.isFlowZone = false) :
    runTeleportComplete cfg sinFn s tz p =
      (let s1 := EngState.despawn s p.token
       let sp := EngState.spawn cfg s1 p.cardType (some tz.center) p.newFlipped
       let r := ZoneState.addWithTeleport cfg sinFn tz sp.1.tokens sp.2
       ({ sp.1 with tokens := r.1.2 }, r.1.1, r.2)) := by
  unfold runTeleportComplete
  simp only [h]
  rfl

end CardEngine

namespace CardEngine

theorem teleport_cycle (cfg : Config) (sinFn : ℚ → ℚ) (s : EngState) (tz : ZoneState)
    (tid : ℕ) (c : CardType) (fl : Bool) :
    (runTeleportComplete cfg sinFn s tz ⟨tid, c, fl⟩).2.2 = tid ∧
    (runTeleportComplete cfg sinFn s tz ⟨tid, c, fl⟩).1.freelist = s.freelist ∧
    ((runTeleportComplete cfg sinFn s tz ⟨tid, c, fl⟩).1.tokens tid).ctype = c ∧
    ((runTeleportComplete cfg sinFn s tz ⟨tid, c, fl⟩).1.tokens tid).flipped = fl ∧
    (runTeleportComplete cfg sinFn s tz ⟨tid, c, fl⟩).2.1.items = tz.items ++ [tid] ∧
    ((runTeleportComplete cfg sinFn s tz ⟨tid, c, fl⟩).1.tokens tid).flowMode =
      tz.isFlowZone ∧
    ((runTeleportComplete cfg sinFn s tz ⟨tid, c, fl⟩).1.tokens tid).parent =
      (if tz.isFlowZone then tz.element else 0) := by
  cases htz : tz.isFlowZone with
  | true =>
      rw [runTeleportComplete_flow cfg sinFn s tz ⟨tid, c, fl⟩ htz]
      dsimp only
      obtain ⟨e1, e2, e3, e4, e5, e6⟩ :=
        spawnIntoFlow_of_cons (EngState.despawn s tid) tid s.freelist rfl c tz.element fl
      refine ⟨?_, e2, ?_, ?_, ?_, ?_, ?_⟩
      · exact (addWithTeleport_zone cfg sinFn tz _ _).2.trans e1
      · exact (addWithTeleport_ctype cfg sinFn tz _ _ tid).trans e3
      · exact (addWithTeleport_flipped cfg sinFn tz _ _ tid).trans e4
      · exact (addWithTeleport_zone cfg sinFn tz _ _).1.trans (by rw [e1])
      · rw [e1]
        exact addWithTeleport_flow_flowMode cfg sinFn tz _ tid htz
      · rw [e1, addWithTeleport_flow_parent cfg sinFn tz _ tid htz]
        simp [htz]
  | false =>
      rw [runTeleportComplete_not_flow cfg sinFn s tz ⟨tid, c, fl⟩ htz]
      dsimp only
      obtain ⟨e1, e2, e3, e4, e5, e6⟩ :=
        spawn_of_cons cfg (EngState.despawn s tid) tid s.freelist rfl c (some tz.center) fl
      refine ⟨?_, e2, ?_, ?_, ?_, ?_, ?_⟩
      · exact (addWithTeleport_zone cfg sinFn tz _ _).2.trans e1
      · exact (addWithTeleport_ctype cfg sinFn tz _ _ tid).trans e3
      · exact (addWithTeleport_flipped cfg sinFn tz _ _ tid).trans e4
      · exact (addWithTeleport_zone cfg sinFn tz _ _).1.trans (by rw [e1])
      · rw [addWithTeleport_flowMode_of_not_flow cfg sinFn tz _ _ tid htz, e5]
      · rw [addWithTeleport_parent_of_not_flow cfg sinFn tz _ _ tid htz, e6,
          (despawn_token_fields s tid).1]
        simp [htz]

end CardEngine

namespace CardEngine

/-- C2 (as stated) is false in one respect: on the teleport path the token
delivered to `onComplete` is not a *new* token identity — `despawn` pushes
the original onto the LIFO pool and the immediately following spawn pops
that same token, so the delivered token is the recycled original.  Concrete
run: transferring token `5` from a flow zone to a row zone returns `null`,
and the teleport completion delivers token `5` itself. -/
theorem claim_C2_cex :
    (transferCard ⟨80, 112⟩ (fun _ => 0) ⟨fun _ => newTokenState 1, [], 6⟩
      ⟨[5], .flow 8, 1, (0, 0), 200, 0⟩ ⟨[], .row, 2, (10, 10), 200, 0⟩ 5 false).returned
      = none ∧
    (transferCard ⟨80, 112⟩ (fun _ => 0) ⟨fun _ => newTokenState 1, [], 6⟩
      ⟨[5], .flow 8, 1, (0, 0), 200, 0⟩ ⟨[], .row, 2, (10, 10), 200, 0⟩ 5 false).pending
      = some ⟨5, none, false⟩ ∧
    (runTeleportComplete ⟨80, 112⟩ (fun _ => 0)
      (transferCard ⟨80, 112⟩ (fun _ => 0) ⟨fun _ => newTokenState 1, [], 6⟩
        ⟨[5], .flow 8, 1, (0, 0), 200, 0⟩ ⟨[], .row, 2, (10, 10), 200, 0⟩ 5 false).state
      ⟨[], .row, 2, (10, 10), 200, 0⟩ ⟨5, none, false⟩).2.2 = 5 := by
  refine ⟨rfl, rfl, rfl⟩

/-- C2 (amended): for every token and pair of zones, if neither zone is a
Flow zone, `transferCard` removes the token from the source zone's item
list (first occurrence), flips it iff `flipOnTransfer`, appends the very
same token to the destination, returns it and invokes `onComplete` with
it, scheduling nothing.  If either zone is a Flow zone, `transferCard`
returns `null`, removes the token from the source, marks it
`teleport-out`, and schedules a completion capturing the token's type and
(possibly negated) flip; when that completion runs, the original token is
despawned and a token freshly spawned from the pool — which, the pool
being LIFO, is the same recycled token object (`rc.2.2 = tid`) — carries
the captured card type and flip state (negated iff `flipOnTransfer`), is
spawned in flow mode into the destination element iff the destination is a
Flow zone (coordinate spawn onto the stage otherwise), is appended to the
destination, and is delivered to `onComplete`. -/
theorem claim_C2_transferCard (cfg : Config) (sinFn : ℚ → ℚ) (s : EngState)
    (fz tz : ZoneState) (tid : ℕ) (flip : Bool) (newFl : Bool) (R : TransferResult)
    (rc : EngState × ZoneState × ℕ)
    (hN : newFl = (if flip then !(s.tokens tid).flipped else (s.tokens tid).flipped))
    (hR : R = transferCard cfg sinFn s fz tz tid flip)
    (hrc : rc = runTeleportComplete cfg sinFn R.state tz
      ⟨tid, (s.tokens tid).ctype, newFl⟩) :
    ((fz.isFlowZone || tz.isFlowZone) = false →
      R.fromZone.items = fz.items.erase tid ∧
      R.toZone.items = tz.items ++ [tid] ∧
      R.returned = some tid ∧
      R.delivered = some tid ∧
      R.pending = none ∧
      (R.state.tokens tid).flipped = newFl ∧
      (R.state.tokens tid).ctype = (s.tokens tid).ctype) ∧
    ((fz.isFlowZone || tz.isFlowZone) = true →
      R.returned = none ∧
      R.delivered = none ∧
      R.fromZone.items = fz.items.erase tid ∧
      R.toZone = tz ∧
      (R.state.tokens tid).tOut = true ∧
      R.pending = some ⟨tid, (s.tokens tid).ctype, newFl⟩ ∧
      rc.2.2 = tid ∧
      rc.1.freelist = s.freelist ∧
      (rc.1.tokens tid).ctype = (s.tokens tid).ctype ∧
      (rc.1.tokens tid).flipped = newFl ∧
      rc.2.1.items = tz.items ++ [tid] ∧
      (rc.1.tokens tid).flowMode = tz.isFlowZone ∧
      (rc.1.tokens tid).parent = (if tz.isFlowZone then tz.element else 0)) := by
  subst hR
  subst hrc
  subst hN
  constructor
  · intro h
    rw [transferCard_not_flow cfg sinFn s fz tz tid flip h]
    dsimp only
    refine ⟨removeToken_items cfg sinFn fz s.tokens tid, rfl, rfl, rfl, rfl, ?_, ?_⟩
    · cases flip with
      | false =>
          exact (render_flipped cfg sinFn _ _ tid).trans
            (removeToken_flipped cfg sinFn fz s.tokens tid tid)
      | true =>
          refine (render_flipped cfg sinFn _ _ tid).trans ?_
          rw [if_pos rfl, setTok_same]
          show (!((ZoneState.removeToken cfg sinFn fz s.tokens tid).1.2 tid).flipped) = _
          rw [removeToken_flipped cfg sinFn fz s.tokens tid tid, if_pos rfl]
    · cases flip with
      | false =>
          exact (render_ctype cfg sinFn _ _ tid).trans
            (removeToken_ctype cfg sinFn fz s.tokens tid tid)
      | true =>
          refine (render_ctype cfg sinFn _ _ tid).trans ?_
          rw [if_pos rfl, setTok_same]
          show ((ZoneState.removeToken cfg sinFn fz s.tokens tid).1.2 tid).ctype = _
          rw [removeToken_ctype cfg sinFn fz s.tokens tid tid]
  · intro h
    rw [transferCard_flow cfg sinFn s fz tz tid flip h]
    dsimp only
    refine ⟨rfl, rfl, removeToken_items cfg sinFn fz s.tokens tid, rfl, ?_, rfl,
      ?_, ?_, ?_, ?_, ?_, ?_, ?_⟩
    · rw [setTok_same]
      rfl
    · exact (teleport_cycle cfg sinFn _ tz tid _ _).1
    · exact (teleport_cycle cfg sinFn _ tz tid _ _).2.1
    · exact (teleport_cycle cfg sinFn _ tz tid _ _).2.2.1
    · exact (teleport_cycle cfg sinFn _ tz tid _ _).2.2.2.1
    · exact (teleport_cycle cfg sinFn _ tz tid _ _).2.2.2.2.1
    · exact (teleport_cycle cfg sinFn _ tz tid _ _).2.2.2.2.2.1
    · exact (teleport_cycle cfg sinFn _ tz tid _ _).2.2.2.2.2.2

end CardEngine

namespace CardEngine

/-- Witness for C2: concrete non-flow transfer of token 5 between two row
zones returns the same token and appends it to the destination. -/
theorem claim_C2_transferCard_witness :
    (transferCard ⟨80, 112⟩ (fun _ => 0) ⟨fun _ => newTokenState 1, [], 6⟩
      ⟨[5], .row, 1, (0, 0), 200, 0⟩ ⟨[], .row, 2, (10, 10), 200, 0⟩ 5 false).returned
      = some 5 ∧
    (transferCard ⟨80, 112⟩ (fun _ => 0) ⟨fun _ => newTokenState 1, [], 6⟩
      ⟨[5], .row, 1, (0, 0), 200, 0⟩ ⟨[], .row, 2, (10, 10), 200, 0⟩ 5 false).toZone.items
      = [5] := by
  have hb := (claim_C2_transferCard ⟨80, 112⟩ (fun _ => 0) ⟨fun _ => newTokenState 1, [], 6⟩
    ⟨[5], .row, 1, (0, 0), 200, 0⟩ ⟨[], .row, 2, (10, 10), 200, 0⟩ 5 false _ _ _
    rfl rfl rfl).1 rfl
  exact ⟨hb.2.2.1, hb.2.1⟩

end CardEngine

namespace CardEngine

theorem keepFrom_nil (k : ℕ) (l : List ℕ) : keepFrom [] k l = l := by
  induction l generalizing k with
  | nil => rfl
  | cons a as ih => simp [keepFrom, ih]

theorem keepFrom_all_lt (s : List ℤ) : ∀ (k : ℕ) (l : List ℕ),
    (∀ i ∈ s, i < (k : ℤ)) → keepFrom s k l = l := by
  intro k l
  induction l generalizing k with
  | nil => intro _; rfl
  | cons a as ih =>
      intro h
      simp only [keepFrom]
      rw [if_neg (fun hm => absurd (h _ hm) (by simp)),
        ih (k + 1) (fun i hi => lt_trans (h i hi) (by exact_mod_cast Nat.lt_succ_self k))]

theorem keepFrom_congr_mem (s t : List ℤ) (hst : ∀ i, i ∈ s ↔ i ∈ t) :
    ∀ (k : ℕ) (l : List ℕ), keepFrom s k l = keepFrom t k l := by
  intro k l
  induction l generalizing k with
  | nil => rfl
  | cons a as ih =>
      simp only [keepFrom]
      by_cases hk : ((k : ℤ)) ∈ s
      · rw [if_pos hk, if_pos ((hst _).mp hk), ih (k + 1)]
      · rw [if_neg hk, if_neg (fun hm => hk ((hst _).mpr hm)), ih (k + 1)]

theorem keepFrom_cons_oob (j : ℤ) (s : List ℤ) :
    ∀ (k : ℕ) (l : List ℕ), (j < 0 ∨ ((k + l.length : ℕ) : ℤ) ≤ j) →
    keepFrom (j :: s) k l = keepFrom s k l := by
  intro k l
  induction l generalizing k with
  | nil => intro _; rfl
  | cons a as ih =>
      intro h
      have hkj : ((k : ℤ)) ≠ j := by
        rcases h with h | h
        · omega
        · simp only [List.length_cons] at h
          push_cast at h
          omega
      simp only [keepFrom, List.mem_cons]
      have hcond : (((k : ℤ)) = j ∨ ((k : ℤ)) ∈ s) ↔ ((k : ℤ)) ∈ s := by
        constructor
        · rintro (he | hm)
          · exact absurd he hkj
          · exact hm
        · exact Or.inr
      rw [if_congr hcond rfl rfl]
      have hrec := ih (k + 1) (by
        rcases h with h | h
        · exact Or.inl h
        · refine Or.inr ?_
          push_cast at h ⊢
          simp only [List.length_cons] at h
          omega)
      by_cases hks : ((k : ℤ)) ∈ s <;> simp [hks, hrec]

theorem keepFrom_all_oob (s : List ℤ) : ∀ (k : ℕ) (l : List ℕ),
    (∀ i ∈ s, i < (k : ℤ) ∨ ((k + l.length : ℕ) : ℤ) ≤ i) → keepFrom s k l = l := by
  intro k l
  induction l generalizing k with
  | nil => intro _; rfl
  | cons a as ih =>
      intro h
      simp only [keepFrom]
      rw [if_neg (fun hm => by
        rcases h _ hm with hlt | hle
        · omega
        · push_cast at hle
          simp only [List.length_cons] at hle
          omega)]
      rw [ih (k + 1) (fun i hi => by
        rcases h i hi with hlt | hle
        · left
          push_cast at hlt ⊢
          omega
        · right
          push_cast at hle ⊢
          simp only [List.length_cons] at hle
          omega)]

theorem keepFrom_erase (j : ℕ) : ∀ (k : ℕ) (l : List ℕ) (s : List ℤ),
    (∀ i ∈ s, i < ((k + j : ℕ) : ℤ)) →
    keepFrom (((k + j : ℕ) : ℤ) :: s) k l = keepFrom s k (l.eraseIdx j) := by
  induction j with
  | zero =>
      intro k l s h
      cases l with
      | nil => rfl
      | cons a as =>
          show keepFrom _ k (a :: as) = keepFrom s k as
          simp only [keepFrom]
          rw [if_pos (by simp)]
          rw [keepFrom_all_lt _ (k + 1) as (by
            intro i hi
            rcases List.mem_cons.mp hi with he | hm
            · subst he
              push_cast
              omega
            · have := h i hm
              push_cast at this ⊢
              omega)]
          rw [keepFrom_all_lt s k as (by
            intro i hi
            have := h i hi
            push_cast at this ⊢
            omega)]
  | succ j ih =>
      intro k l s h
      cases l with
      | nil => rfl
      | cons a as =>
          have hkj : ((k : ℤ)) ≠ ((k + (j + 1) : ℕ) : ℤ) := by
            push_cast
            omega
          show keepFrom _ k (a :: as) = keepFrom s k (a :: as.eraseIdx j)
          simp only [keepFrom, List.mem_cons]
          have hcond : (((k : ℤ)) = ((k + (j + 1) : ℕ) : ℤ) ∨ ((k : ℤ)) ∈ s) ↔
              ((k : ℤ)) ∈ s := by
            constructor
            · rintro (he | hm)
              · exact absurd he hkj
              · exact hm
            · exact Or.inr
          rw [if_congr hcond rfl rfl]
          have hrec : keepFrom (((k + (j + 1) : ℕ) : ℤ) :: s) (k + 1) as =
              keepFrom s (k + 1) (as.eraseIdx j) := by
            have hcast : ((k + (j + 1) : ℕ)) = (((k + 1) + j : ℕ)) := by omega
            rw [hcast]
            exact ih (k + 1) as s (by
              intro i hi
              have := h i hi
              push_cast at this ⊢
              omega)
          push_cast at hrec
          by_cases hks : ((k : ℤ)) ∈ s <;> simp [hks, hrec]

theorem getElem?_eraseIdx_of_lt : ∀ (l : List ℕ) (n k : ℕ), k < n →
    (l.eraseIdx n)[k]? = l[k]? := by
  intro l
  induction l with
  | nil => intro n k _; rfl
  | cons a as ih =>
      intro n k h
      cases n with
      | zero => omega
      | succ n =>
          cases k with
          | zero =>
              rw [List.eraseIdx_cons_succ]
              simp
          | succ k =>
              rw [List.eraseIdx_cons_succ]
              simp only [List.getElem?_cons_succ]
              exact ih n k (by omega)

theorem lookupIdx_eraseIdx (l : List ℕ) (n : ℕ) (i : ℤ) (h : i < (n : ℤ)) :
    lookupIdx (l.eraseIdx n) i = lookupIdx l i := by
  unfold lookupIdx
  split
  · next h0 => exact getElem?_eraseIdx_of_lt l n i.toNat (by omega)
  · rfl

theorem pairwise_gt_of_sorted_nodup : ∀ (l : List ℤ), List.Sorted (· ≥ ·) l → l.Nodup →
    l.Pairwise (· > ·) := by
  intro l h1 h2
  induction l with
  | nil => exact List.Pairwise.nil
  | cons a t ih =>
      rw [List.sorted_cons] at h1
      rw [List.nodup_cons] at h2
      rw [List.pairwise_cons]
      refine ⟨?_, ih h1.2 h2.2⟩
      intro b hb
      have hge := h1.1 b hb
      have hne : a ≠ b := fun he => h2.1 (he ▸ hb)
      exact lt_of_le_of_ne hge (Ne.symm hne)

theorem filterMap_eq_nil_of_none {f : ℤ → Option ℕ} : ∀ {l : List ℤ},
    (∀ a ∈ l, f a = none) → l.filterMap f = [] := by
  intro l h
  induction l with
  | nil => rfl
  | cons a t ih =>
      rw [List.filterMap_cons, h a (by simp)]
      exact ih (fun b hb => h b (by simp [hb]))

end CardEngine

namespace CardEngine

theorem removeIndicesGo_spec : ∀ (s : List ℤ) (l : List ℕ), s.Pairwise (· > ·) →
    removeIndicesGo s l = (keepFrom s 0 l, s.filterMap (lookupIdx l)) := by
  intro s
  induction s with
  | nil => intro l _; simp [removeIndicesGo, keepFrom_nil]
  | cons j rest ih =>
      intro l hp
      rw [List.pairwise_cons] at hp
      obtain ⟨hall, hrest⟩ := hp
      cases hl : lookupIdx l j with
      | some a =>
          have h0 : 0 ≤ j := by
            by_contra hneg
            rw [lookupIdx, if_neg hneg] at hl
            cases hl
          have hget : l[j.toNat]? = some a := by
            rw [lookupIdx, if_pos h0] at hl
            exact hl
          simp only [removeIndicesGo, hl]
          rw [ih (l.eraseIdx j.toNat) hrest]
          rw [Prod.mk.injEq]
          constructor
          · have hj : ((0 + j.toNat : ℕ) : ℤ) = j := by
              push_cast
              simp [Int.toNat_of_nonneg h0]
            have hb : ∀ i ∈ rest, i < ((0 + j.toNat : ℕ) : ℤ) := by
              intro i hi
              rw [hj]
              exact hall i hi
            have := keepFrom_erase j.toNat 0 l rest hb
            rw [hj] at this
            exact this.symm
          · rw [List.filterMap_cons, hl]
            congr 1
            apply List.filterMap_congr
            intro i hi
            exact lookupIdx_eraseIdx l j.toNat i (by
              have := hall i hi
              omega)
      | none =>
          simp only [removeIndicesGo, hl]
          rw [ih l hrest]
          rw [Prod.mk.injEq]
          constructor
          · refine (keepFrom_cons_oob j rest 0 l ?_).symm
            by_cases h0 : 0 ≤ j
            · right
              rw [lookupIdx, if_pos h0] at hl
              have : l.length ≤ j.toNat := by
                by_contra hlt
                rw [List.getElem?_eq_getElem (by omega)] at hl
                cases hl
              omega
            · left
              omega
          · rw [List.filterMap_cons, hl]

/-- C8 (as stated) is false for duplicate indices: on items
`[10, 11, 12, 13]`, `removeIndices([2, 2])` removes the item at index 2
*and* the item originally at index 3 (after the first splice the list
shifts), leaving `[10, 11]` and returning `[12, 13]`, whereas removing
"exactly the items at the in-range indices" would leave `[10, 11, 13]`. -/
theorem claim_C8_cex :
    (ZoneState.removeIndices ⟨80, 112⟩ (fun _ => 0)
      ⟨[10, 11, 12, 13], .row, 1, (0, 0), 200, 0⟩ (fun _ => newTokenState 0)
      [2, 2]).1.1.items = [10, 11] ∧
    keepFrom [2, 2] 0 [10, 11, 12, 13] = [10, 11, 13] ∧
    (ZoneState.removeIndices ⟨80, 112⟩ (fun _ => 0)
      ⟨[10, 11, 12, 13], .row, 1, (0, 0), 200, 0⟩ (fun _ => newTokenState 0)
      [2, 2]).2.1 = [12, 13] := by
  refine ⟨rfl, by decide, rfl⟩

/-- C8 (amended: for pairwise-distinct index lists): `removeIndices`
removes exactly the items at the in-range indices — the remaining items
are those whose original position is not listed (`keepFrom`), and the
removed tokens are returned in the order they were removed, namely the
descending order of the sorted in-range indices, each looked up in the
*original* list (descending processing prevents index shifting) —
leaves the zone unchanged when every index is out of range (silent no-op),
and triggers exactly one re-layout. -/
theorem claim_C8_removeIndices (cfg : Config) (sinFn : ℚ → ℚ) (z : ZoneState)
    (m : TokenMap) (indices : List ℤ) (h : indices.Nodup) :
    (ZoneState.removeIndices cfg sinFn z m indices).1.1.items =
      keepFrom indices 0 z.items ∧
    (ZoneState.removeIndices cfg sinFn z m indices).2.1 =
      (indices.insertionSort (· ≥ ·)).filterMap (lookupIdx z.items) ∧
    (ZoneState.removeIndices cfg sinFn z m indices).1.1.renders = z.renders + 1 ∧
    ((∀ i ∈ indices, lookupIdx z.items i = none) →
      (ZoneState.removeIndices cfg sinFn z m indices).1.1.items = z.items ∧
      (ZoneState.removeIndices cfg sinFn z m indices).2.1 = []) := by
  have hsorted : List.Sorted (· ≥ ·) (indices.insertionSort (· ≥ ·)) :=
    List.sorted_insertionSort _ _
  have hperm : (indices.insertionSort (· ≥ ·)).Perm indices :=
    List.perm_insertionSort _ _
  have hnd : (indices.insertionSort (· ≥ ·)).Nodup := (hperm.nodup_iff).mpr h
  have hgt := pairwise_gt_of_sorted_nodup _ hsorted hnd
  have hmain := removeIndicesGo_spec (indices.insertionSort (· ≥ ·)) z.items hgt
  refine ⟨?_, ?_, rfl, ?_⟩
  · show (removeIndicesGo (indices.insertionSort (· ≥ ·)) z.items).1 = _
    rw [hmain]
    exact keepFrom_congr_mem _ _ (fun i => hperm.mem_iff) 0 z.items
  · show (removeIndicesGo (indices.insertionSort (· ≥ ·)) z.items).2 = _
    rw [hmain]
  · intro hnone
    constructor
    · show (removeIndicesGo (indices.insertionSort (· ≥ ·)) z.items).1 = _
      rw [hmain]
      dsimp only
      rw [keepFrom_congr_mem _ indices (fun i => hperm.mem_iff) 0 z.items]
      refine keepFrom_all_oob indices 0 z.items ?_
      intro i hi
      have := hnone i hi
      by_cases h0 : 0 ≤ i
      · right
        rw [lookupIdx, if_pos h0] at this
        have hlen : z.items.length ≤ i.toNat := by
          by_contra hlt
          rw [List.getElem?_eq_getElem (by omega)] at this
          cases this
        omega
      · left
        omega
    · show (removeIndicesGo (indices.insertionSort (· ≥ ·)) z.items).2 = _
      rw [hmain]
      dsimp only
      refine filterMap_eq_nil_of_none ?_
      intro a ha
      exact hnone a (hperm.mem_iff.mp ha)

/-- Witness for C8: distinct indices `[0, 2]` on items `[10, 11, 12, 13]`
remove `[12, 10]` (descending order) and leave `[11, 13]`. -/
theorem claim_C8_removeIndices_witness :
    ([0, 2] : List ℤ).Nodup ∧
    (ZoneState.removeIndices ⟨80, 112⟩ (fun _ => 0)
      ⟨[10, 11, 12, 13], .row, 1, (0, 0), 200, 0⟩ (fun _ => newTokenState 0)
      [0, 2]).1.1.items = [11, 13] ∧
    (ZoneState.removeIndices ⟨80, 112⟩ (fun _ => 0)
      ⟨[10, 11, 12, 13], .row, 1, (0, 0), 200, 0⟩ (fun _ => newTokenState 0)
      [0, 2]).2.1 = [12, 10] := by
  have hh := claim_C8_removeIndices ⟨80, 112⟩ (fun _ => 0)
    ⟨[10, 11, 12, 13], .row, 1, (0, 0), 200, 0⟩ (fun _ => newTokenState 0)
    [0, 2] (by decide)
  refine ⟨by decide, hh.1.trans (by decide), hh.2.1.trans (by decide)⟩

end CardEngine
